import Mathlib

/-!
Verification of the documentation link validator (`tools/validate_docs.py`).

The Python program is shallowly embedded: paths are lists of path segments,
document contents are `Except` values modelling the result of `read_text`,
and every partial Python operation (`Path.resolve`, `Path.relative_to`)
becomes an explicit `Option`-returning function.  The regex-based link
extractor is embedded as an executable scanner over character lists that is
faithful to `re.findall` on the two concrete patterns used by the source
(leftmost, non-overlapping matches; a character class `[^x]+` matches the
maximal nonempty run up to the next occurrence of `x`).
-/

/-- Boolean test that the first list is an initial segment of the second
(used to embed Python `str.startswith`). -/
def isPre : List Char → List Char → Bool
  | [], _ => true
  | _ :: _, [] => false
  | p :: ps, c :: cs => p = c && isPre ps cs

/-- Embeds Python `s.startswith(pat)`. -/
def pyStartsWith (s pat : String) : Bool :=
  isPre pat.toList s.toList

/-- Embeds Python `s.endswith(pat)`. -/
def pyEndsWith (s pat : String) : Bool :=
  isPre pat.toList.reverse s.toList.reverse

/-- Characters removed by Python `str.strip()` (ASCII whitespace). -/
def isSpaceChar (c : Char) : Bool :=
  c = ' ' || c = '\t' || c = '\n' || c = '\r' || c = '\x0b' || c = '\x0c'

/-- Embeds Python `s.strip()`. -/
def pyStrip (s : List Char) : List Char :=
  ((s.dropWhile isSpaceChar).reverse.dropWhile isSpaceChar).reverse

/-- Embeds Python `s.split('#')[0]`: everything before the first `#`. -/
def beforeHash : List Char → List Char
  | [] => []
  | c :: cs => if c = '#' then [] else c :: beforeHash cs

/-- The link cleaning in `_check_link`: `link.split('#')[0]` then `.strip()`. -/
def clean_link (link : String) : String :=
  String.mk (pyStrip (beforeHash link.toList))

/-- Splits a character list at `/` separators (helper for `Path` parsing). -/
def splitSlashAux : List Char → List Char → List (List Char)
  | acc, [] => [acc.reverse]
  | acc, c :: cs => if c = '/' then acc.reverse :: splitSlashAux [] cs
      else splitSlashAux (c :: acc) cs

/-- All `/`-separated pieces of a string. -/
def splitSlash (s : String) : List (List Char) :=
  splitSlashAux [] s.toList

/-- The path segments `pathlib.Path` keeps from a link string: empty pieces
and `.` pieces are dropped at construction, `..` is kept. -/
def linkSegs (lp : String) : List String :=
  ((splitSlash lp).map String.mk).filter (fun s => s != "" && s != ".")

/-- Embeds the `..`-elimination performed by `Path.resolve()` on an absolute
segment list; `..` at the filesystem root stays at the root. -/
def resolveSegs : List String → List String → List String
  | acc, [] => acc
  | acc, s :: rest =>
    if s = ".." then resolveSegs acc.dropLast rest
    else resolveSegs (acc ++ [s]) rest

/-- Embeds `Path.relative_to`: succeeds exactly when the first list is an
initial segment of the second, returning the remainder (`ValueError`
becomes `none`). -/
def stripRoot : List String → List String → Option (List String)
  | [], ys => some ys
  | _ :: _, [] => none
  | x :: xs, y :: ys => if x = y then stripRoot xs ys else none

/-- `str()` of a relative `Path` given by its segments (empty = `Path(".")`). -/
def segsStr (l : List String) : String :=
  if l.isEmpty then "." else String.intercalate "/" l

/-- Slash-joined rendering of a segment list. -/
def pathStr (segs : List String) : String :=
  String.intercalate "/" segs

/-- A document path relative to the docs root: directory segments plus the
final file name (as produced by `md_file.relative_to(self.docs_root)`). -/
structure RelPath where
  dirs : List String
  name : String
deriving DecidableEq

instance (α β : Type) [DecidableEq α] [DecidableEq β] :
    DecidableEq (Except α β) := fun
  | Except.error a, Except.error b =>
    if h : a = b then Decidable.isTrue (by rw [h])
    else Decidable.isFalse (by simp [h])
  | Except.error _, Except.ok _ => Decidable.isFalse (by simp)
  | Except.ok _, Except.error _ => Decidable.isFalse (by simp)
  | Except.ok a, Except.ok b =>
    if h : a = b then Decidable.isTrue (by rw [h])
    else Decidable.isFalse (by simp [h])

/-- A discovered document: its root-relative path and the outcome of
`md_file.read_text()` (`Except.error` models a raised exception). -/
structure Doc where
  path : RelPath
  content : Except String String
deriving DecidableEq

/-- The aggregate result of one run: the validator instance's `errors` and
`warnings` lists and the boolean returned by `validate`. -/
structure Verdict where
  errors : List String
  warnings : List String
  success : Bool
deriving DecidableEq

/-- `str(rel_path)` for a root-relative document path. -/
def relStr (p : RelPath) : String :=
  pathStr (p.dirs ++ [p.name])

/-- `str()` of the absolute path of a document (`root` is the absolute docs
root as segments, rendered POSIX-style with a leading slash). -/
def absStr (root : List String) (p : RelPath) : String :=
  "/" ++ pathStr (root ++ p.dirs ++ [p.name])

/-- The f-string appended for a broken link:
`f"Broken link in {source_file}: {link}"`. -/
def brokenMsg (root : List String) (src : RelPath) (link : String) : String :=
  "Broken link in " ++ absStr root src ++ ": " ++ link

/-- The f-string appended for an unreadable document:
`f"Cannot read {md_file}: {e}"`. -/
def cantReadMsg (root : List String) (p : RelPath) (e : String) : String :=
  "Cannot read " ++ absStr root p ++ ": " ++ e

/-- The fatal discovery error message. -/
def noDocsMsg : String := "No markdown files found in docs/"

/-- Index of the last `.` in a character list (Python `str.rfind('.')`,
as `none` when absent). -/
def lastDotIdx : List Char → Option Nat
  | [] => none
  | c :: cs =>
    match lastDotIdx cs with
    | some i => some (i + 1)
    | none => if c = '.' then some 0 else none

/-- Embeds `PurePath.stem` for a file name: the name with its suffix
removed, where a suffix exists only when the last dot sits strictly inside
the name (`0 < i < len(name) - 1` in CPython). -/
def pyStem (name : String) : String :=
  match lastDotIdx name.toList with
  | none => name
  | some i =>
    if 0 < i ∧ i + 1 < name.toList.length then String.mk (name.toList.take i)
    else name

/-- `_build_file_index`: for every document path insert `str(rel_path)`,
`str(rel_path.with_suffix(''))`, `rel_path.name` and `rel_path.stem`.
The Python `set` is embedded as a list queried only through membership. -/
def build_file_index : List RelPath → List String
  | [] => []
  | p :: ps =>
    relStr p :: pathStr (p.dirs ++ [pyStem p.name]) :: p.name :: pyStem p.name
      :: build_file_index ps

/-- Splits a character list at the first occurrence of `ch`, consuming it;
`none` when `ch` is absent.  This is the deterministic behaviour of the
greedy regex fragment `([^ch]+)ch` used by both link patterns. -/
def findCloseSplit (ch : Char) : List Char → Option (List Char × List Char)
  | [] => none
  | c :: cs =>
    if c = ch then some ([], cs)
    else
      match findCloseSplit ch cs with
      | none => none
      | some (a, b) => some (c :: a, b)

/-- Attempts to match the pattern `\[([^\]]+)\]LO([^LC]+)LC` at the head of
the list (`LO`/`LC` instantiate to `(`/`)` for the inline-link pattern and
`[`/`]` for the reference-style pattern).  Returns the two capture groups
and the unconsumed remainder. -/
def patAt (lo lc : Char) (l : List Char) :
    Option (List Char × List Char × List Char) :=
  match l with
  | [] => none
  | c :: cs =>
    if c = '[' then
      match findCloseSplit ']' cs with
      | none => none
      | some (lab, rest1) =>
        if lab.isEmpty then none
        else
          match rest1 with
          | [] => none
          | d :: cs2 =>
            if d = lo then
              match findCloseSplit lc cs2 with
              | none => none
              | some (tgt, rest2) =>
                if tgt.isEmpty then none else some (lab, tgt, rest2)
            else none
    else none

/-- `re.findall` for one pattern: leftmost, non-overlapping matches found by
advancing one character on failure and jumping over each match.  The first
component records the match's start position in the text (ghost data used
to state ordering properties); the fuel argument is instantiated with the
text length, which each step strictly exceeds the consumed input by. -/
def patScanF (lo lc : Char) : Nat → Nat → List Char →
    List (Nat × List Char × List Char)
  | 0, _, _ => []
  | _ + 1, _, [] => []
  | fuel + 1, pos, c :: cs =>
    match patAt lo lc (c :: cs) with
    | some (lab, tgt, rest) =>
      (pos, lab, tgt) :: patScanF lo lc fuel (pos + ((c :: cs).length - rest.length)) rest
    | none => patScanF lo lc fuel (pos + 1) cs

/-- All matches of one pattern over a document's text. -/
def patMatches (lo lc : Char) (content : String) :
    List (Nat × List Char × List Char) :=
  patScanF lo lc content.toList.length 0 content.toList

/-- The tuples `re.findall` returns for a two-group pattern: one list of
group strings per match. -/
def findallTuples (lo lc : Char) (content : String) : List (List String) :=
  (patMatches lo lc content).map (fun e => [String.mk e.2.1, String.mk e.2.2])

/-- The per-match projection in `_extract_links`:
`match[1] if len(match) > 1 else match[0]`. -/
def pickTarget (m : List String) : String :=
  if 1 < m.length then m.getD 1 "" else m.getD 0 ""

/-- `_extract_links`: run the inline pattern, then the reference-style
pattern, over the whole text and append the projected target of every
match of each. -/
def extract_links (content : String) : List String :=
  (findallTuples '(' ')' content).map pickTarget
    ++ (findallTuples '[' ']' content).map pickTarget

/-- The `try` block of the relative-resolution branch of `_check_link`:
`(source_dir / link_path).resolve().relative_to(self.docs_root)`.
`source_dir` is root-relative, so `resolve()` absolutises the joined path
against the process working directory `cwd`; `relative_to` then demands
the absolute docs root `root` as a prefix.  `none` models a raised
exception. -/
def try_resolve (cwd root srcDir : List String) (lp : String) :
    Option (List String) :=
  let segs := linkSegs lp
  let abs := if pyStartsWith lp "/" then resolveSegs [] segs
    else resolveSegs [] (cwd ++ srcDir ++ segs)
  stripRoot root abs

/-- `_check_link`: skip external and pure-anchor links, clean the link,
try the flat index, then attempt relative resolution, converting any
exception into a broken-link error.  Returns the appended error message,
or `none` when nothing is appended. -/
def check_link (cwd root : List String) (index : List String) (src : RelPath)
    (link : String) : Option String :=
  if pyStartsWith link "http://" || pyStartsWith link "https://"
      || pyStartsWith link "mailto:" then none
  else if pyStartsWith link "#" then none
  else
    let l := clean_link link
    if l = "" then none
    else
      let lp := if pyEndsWith l ".md" then l else l ++ ".md"
      if lp ∈ index then none
      else
        match try_resolve cwd root src.dirs lp with
        | some r => if segsStr r ∈ index then none else some (brokenMsg root src l)
        | none => some (brokenMsg root src l)

/-- `_validate_file`: an unreadable document contributes exactly its read
error; otherwise every extracted link is checked in order and each broken
one appends one error. -/
def validate_file (cwd root : List String) (index : List String) (doc : Doc) :
    List String :=
  match doc.content with
  | Except.error e => [cantReadMsg root doc.path e]
  | Except.ok text =>
    (extract_links text).filterMap (check_link cwd root index doc.path)

/-- The per-file loop of `validate`, in document order. -/
def validate_all (cwd root : List String) (index : List String) :
    List Doc → List String
  | [] => []
  | d :: ds => validate_file cwd root index d ++ validate_all cwd root index ds

/-- `validate`: fail fast when no documents were found, otherwise build the
index once, validate every file, and report `len(self.errors) == 0`. -/
def validate (cwd root : List String) (docs : List Doc) : Verdict :=
  if docs.isEmpty then ⟨[noDocsMsg], [], false⟩
  else
    let index := build_file_index (docs.map Doc.path)
    let errs := validate_all cwd root index docs
    ⟨errs, [], errs.isEmpty⟩

/-! ### Helper lemmas -/

/-- `findCloseSplit` consumes its whole input: the pieces plus the
delimiter account for every character. -/
theorem findCloseSplit_length {ch : Char} : ∀ {l a b : List Char},
    findCloseSplit ch l = some (a, b) → a.length + b.length + 1 = l.length := by
  intro l
  induction l with
  | nil => intro a b h; simp [findCloseSplit] at h
  | cons c cs ih =>
    intro a b h
    simp only [findCloseSplit] at h
    by_cases hc : c = ch
    · rw [if_pos hc] at h
      simp only [Option.some.injEq, Prod.mk.injEq] at h
      obtain ⟨rfl, rfl⟩ := h
      simp
    · rw [if_neg hc] at h
      rcases hfc : findCloseSplit ch cs with _ | ⟨a1, b1⟩
      · rw [hfc] at h; simp at h
      · rw [hfc] at h
        simp only [Option.some.injEq, Prod.mk.injEq] at h
        obtain ⟨rfl, rfl⟩ := h
        have := ih hfc
        simp only [List.length_cons]
        omega

/-- A successful `patAt` match consumes at least one character. -/
theorem patAt_rest_length {lo lc : Char} : ∀ {l lab tgt rest : List Char},
    patAt lo lc l = some (lab, tgt, rest) → rest.length < l.length := by
  intro l lab tgt rest h
  match l with
  | [] => simp [patAt] at h
  | c :: cs =>
    simp only [patAt] at h
    by_cases hc : c = '['
    · rw [if_pos hc] at h
      rcases h1 : findCloseSplit ']' cs with _ | ⟨lab1, _ | ⟨d, cs2⟩⟩
      · simp only [h1] at h
        exact Option.noConfusion h
      · simp only [h1] at h
        simp at h
      · simp only [h1] at h
        by_cases hl : lab1.isEmpty
        · rw [if_pos hl] at h; exact Option.noConfusion h
        · rw [if_neg hl] at h
          by_cases hd : d = lo
          · rw [if_pos hd] at h
            rcases h2 : findCloseSplit lc cs2 with _ | ⟨tgt1, rest2⟩
            · simp only [h2] at h
              exact Option.noConfusion h
            · simp only [h2] at h
              by_cases ht : tgt1.isEmpty
              · rw [if_pos ht] at h; exact Option.noConfusion h
              · rw [if_neg ht] at h
                simp only [Option.some.injEq, Prod.mk.injEq] at h
                obtain ⟨rfl, rfl, rfl⟩ := h
                have e1 := findCloseSplit_length h1
                have e2 := findCloseSplit_length h2
                simp only [List.length_cons] at e1 e2 ⊢
                omega
          · rw [if_neg hd] at h; exact Option.noConfusion h
    · rw [if_neg hc] at h; exact Option.noConfusion h

/-- Every match reported by the scanner starts at or after the running
position. -/
theorem patScanF_mem_pos_le {lo lc : Char} : ∀ (n pos : Nat) (cs : List Char)
    (e : Nat × List Char × List Char), e ∈ patScanF lo lc n pos cs → pos ≤ e.1 := by
  intro n
  induction n with
  | zero => intro pos cs e he; simp [patScanF] at he
  | succ n ih =>
    intro pos cs e he
    match cs with
    | [] => simp [patScanF] at he
    | c :: cs1 =>
      rcases hp : patAt lo lc (c :: cs1) with _ | ⟨lab, tgt, rest⟩
      · simp only [patScanF, hp] at he
        exact Nat.le_of_succ_le (ih (pos + 1) cs1 e he)
      · simp only [patScanF, hp] at he
        rcases List.mem_cons.mp he with rfl | he1
        · exact Nat.le_refl pos
        · exact Nat.le_trans (Nat.le_add_right pos _) (ih _ rest e he1)

/-- The matches of one pattern are reported in strictly increasing order of
start position (leftmost-first, non-overlapping). -/
theorem patScanF_chain {lo lc : Char} : ∀ (n pos : Nat) (cs : List Char),
    List.Chain' (fun a b : Nat × List Char × List Char => a.1 < b.1)
      (patScanF lo lc n pos cs) := by
  intro n
  induction n with
  | zero => intro pos cs; simp [patScanF]
  | succ n ih =>
    intro pos cs
    match cs with
    | [] => simp [patScanF]
    | c :: cs1 =>
      rcases hp : patAt lo lc (c :: cs1) with _ | ⟨lab, tgt, rest⟩
      · simp only [patScanF, hp]
        exact ih (pos + 1) cs1
      · simp only [patScanF, hp]
        refine List.chain'_cons'.mpr ⟨?_, ih _ rest⟩
        intro y hy
        have hmem := List.mem_of_mem_head? hy
        have h1 := patScanF_mem_pos_le n _ rest y hmem
        have h2 := patAt_rest_length hp
        simp only [List.length_cons] at h1 h2
        omega

/-- The extractor emits, per pattern in pattern order, exactly the second
capture group of each match. -/
theorem extract_links_eq (content : String) :
    extract_links content
      = (patMatches '(' ')' content).map (fun e => String.mk e.2.2)
        ++ (patMatches '[' ']' content).map (fun e => String.mk e.2.2) := by
  have hp : ∀ (l : List (Nat × List Char × List Char)),
      (l.map (fun e => [String.mk e.2.1, String.mk e.2.2])).map pickTarget
        = l.map (fun e => String.mk e.2.2) := by
    intro l
    rw [List.map_map]
    rfl
  unfold extract_links findallTuples
  rw [hp, hp]

/-- The last dot of `l ++ ".md"` is the appended one. -/
theorem lastDotIdx_append_md : ∀ l : List Char,
    lastDotIdx (l ++ ['.', 'm', 'd']) = some l.length := by
  intro l
  induction l with
  | nil => rfl
  | cons c cs ih => simp [lastDotIdx, ih]

/-- For a nonempty base name, Python's `stem` of `base + ".md"` is `base`. -/
theorem pyStem_md {base : String} (hbase : base ≠ "") :
    pyStem (base ++ ".md") = base := by
  have hdata : (base ++ ".md").toList = base.toList ++ ['.', 'm', 'd'] := by
    show (base ++ ".md").data = base.data ++ ['.', 'm', 'd']
    rw [String.data_append]
  have hnil : base.toList ≠ [] := by
    intro hn
    apply hbase
    cases base with
    | mk l =>
      cases hn
      rfl
  have hpos : 0 < base.toList.length := List.length_pos.mpr hnil
  have hcond : 0 < base.toList.length
      ∧ base.toList.length + 1 < (base.toList ++ ['.', 'm', 'd']).length := by
    constructor
    · exact hpos
    · simp
  unfold pyStem
  simp only [hdata, lastDotIdx_append_md]
  rw [if_pos hcond, List.take_left]
  clear hbase hdata hnil hpos hcond
  cases base
  rfl

/-- All four name forms of every listed path are inserted into the index. -/
theorem mem_build_file_index {paths : List RelPath} {p : RelPath}
    (hp : p ∈ paths) :
    relStr p ∈ build_file_index paths
      ∧ pathStr (p.dirs ++ [pyStem p.name]) ∈ build_file_index paths
      ∧ p.name ∈ build_file_index paths
      ∧ pyStem p.name ∈ build_file_index paths := by
  induction paths with
  | nil => cases hp
  | cons q qs ih =>
    rcases List.mem_cons.mp hp with rfl | hp1
    · refine ⟨?_, ?_, ?_, ?_⟩ <;> simp [build_file_index]
    · obtain ⟨h1, h2, h3, h4⟩ := ih hp1
      refine ⟨?_, ?_, ?_, ?_⟩ <;> simp [build_file_index, h1, h2, h3, h4]

/-- The per-file loop distributes over concatenation of document lists. -/
theorem validate_all_app (cwd root index : List String) :
    ∀ (l1 l2 : List Doc),
      validate_all cwd root index (l1 ++ l2)
        = validate_all cwd root index l1 ++ validate_all cwd root index l2 := by
  intro l1 l2
  induction l1 with
  | nil => rfl
  | cons d ds ih => simp [validate_all, ih]

/-- Whenever `_check_link` appends an error, that error is the broken-link
message built from the source document and the cleaned link. -/
theorem check_link_some_eq {cwd root index : List String} {src : RelPath}
    {link : String} {d : String}
    (h : check_link cwd root index src link = some d) :
    d = brokenMsg root src (clean_link link) := by
  simp only [check_link] at h
  repeat' split at h
  all_goals
    first
      | exact (Option.some.inj h).symm
      | simp at h

/-! ### Claim theorems -/

/-- Claim C1, counterexample: for the reference-style link `[label][ref]`
the first capture group is `label`, yet the extractor emits `ref` (the
second group), so the emitted target is not the first capture group. -/
theorem extract_links_ref_emits_second_group_cex :
    (patMatches '[' ']' "[label][ref]").map (fun e => String.mk e.2.1) = ["label"]
      ∧ extract_links "[label][ref]" = ["ref"]
      ∧ ("ref" : String) ≠ "label" := by
  refine ⟨rfl, rfl, by decide⟩

/-- Claim C1 (amended): for every match of either pattern — in particular
every reference-style match `[label][ref]` — exactly one target string is
emitted, and it is the text of the second capture group (`match[1]`, the
reference id), not the first. -/
theorem extract_links_emits_second_group (content : String) :
    extract_links content
      = (patMatches '(' ')' content).map (fun e => String.mk e.2.2)
        ++ (patMatches '[' ']' content).map (fun e => String.mk e.2.2) :=
  extract_links_eq content

/-- Claim C2: with documents `a/page.md` (containing
`[Sibling](../b/other.md)`) and `b/other.md` under docs root
`/home/user/proj/docs` and process working directory `/home/user/proj`,
the run reports the sibling link as broken instead of the zero errors the
specification requires: `Path.resolve()` absolutises the joined path
against the working directory, so `relative_to(docs_root)` raises. -/
theorem validate_sibling_relative_link :
    validate ["home", "user", "proj"] ["home", "user", "proj", "docs"]
        [⟨⟨["a"], "page.md"⟩, Except.ok "[Sibling](../b/other.md)"⟩,
          ⟨⟨["b"], "other.md"⟩, Except.ok ""⟩]
      = ⟨["Broken link in /home/user/proj/docs/a/page.md: ../b/other.md"],
          [], false⟩ := by
  rfl

/-- Claim C3, counterexample: for raw link `nope.md#sec` the appended
diagnostic carries the cleaned text `nope.md`, not the original raw link
text `nope.md#sec`. -/
theorem check_link_diag_cleaned_cex :
    check_link ["h"] ["h", "docs"] ["index.md", "index"] ⟨[], "index.md"⟩
        "nope.md#sec"
      = some "Broken link in /h/docs/index.md: nope.md"
      ∧ ("Broken link in /h/docs/index.md: nope.md" : String)
          ≠ "Broken link in /h/docs/index.md: nope.md#sec" := by
  refine ⟨rfl, by decide⟩

/-- Claim C3 (amended): every Broken diagnostic carries the source document
path and the cleaned link text — the raw link after anchor-stripping and
whitespace-trimming, not the original raw text. -/
theorem check_link_broken_carries_cleaned (cwd root index : List String)
    (src : RelPath) (link : String) (d : String)
    (h : check_link cwd root index src link = some d) :
    d = brokenMsg root src (clean_link link) :=
  check_link_some_eq h

/-- Claim C3 witness: a concrete broken link with an anchor, instantiating
the amended theorem. -/
theorem check_link_broken_carries_cleaned_witness :
    check_link ["u"] ["u", "docs"] [] ⟨[], "a.md"⟩ "x.md#y"
        = some "Broken link in /u/docs/a.md: x.md"
      ∧ ("Broken link in /u/docs/a.md: x.md" : String)
          = brokenMsg ["u", "docs"] ⟨[], "a.md"⟩ (clean_link "x.md#y") :=
  ⟨rfl, check_link_broken_carries_cleaned ["u"] ["u", "docs"] []
    ⟨[], "a.md"⟩ "x.md#y" "Broken link in /u/docs/a.md: x.md" rfl⟩

/-- Claim C4, counterexample: in `[a][r] [b](c)` the reference-style match
starts at position 0 and the inline match at position 7, yet the extractor
returns `["c", "r"]` — the inline target first — so the output is not in
order of first occurrence in the text. -/
theorem extract_links_interleaved_order_cex :
    extract_links "[a][r] [b](c)" = ["c", "r"]
      ∧ (patMatches '[' ']' "[a][r] [b](c)").map (fun e => e.1) = [0]
      ∧ (patMatches '(' ')' "[a][r] [b](c)").map (fun e => e.1) = [7]
      ∧ (["c", "r"] : List String) ≠ ["r", "c"] := by
  refine ⟨rfl, rfl, rfl, by decide⟩

/-- Claim C4 (amended): the extractor emits exactly one target per match
with duplicates preserved, all inline-form targets first and then all
reference-form targets, and within each pattern the matches (hence the
emitted targets) are in order of first occurrence: their start positions
are strictly increasing. -/
theorem extract_links_per_pattern_order (content : String) :
    extract_links content
        = ((patMatches '(' ')' content) ++ (patMatches '[' ']' content)).map
            (fun e => String.mk e.2.2)
      ∧ List.Chain' (fun a b : Nat × List Char × List Char => a.1 < b.1)
          (patMatches '(' ')' content)
      ∧ List.Chain' (fun a b : Nat × List Char × List Char => a.1 < b.1)
          (patMatches '[' ']' content) := by
  refine ⟨?_, ?_, ?_⟩
  · rw [extract_links_eq, List.map_append]
  · exact patScanF_chain _ _ _
  · exact patScanF_chain _ _ _

/-- Claim C5: for every document whose (nonempty-base) name ends in the
`.md` extension, the index built from any set containing it holds all four
forms: the relative path, the relative path without the extension, the
file name, and the file name without the extension. -/
theorem build_file_index_four_forms (paths : List RelPath) (p : RelPath)
    (base : String) (hp : p ∈ paths) (hname : p.name = base ++ ".md")
    (hbase : base ≠ "") :
    pathStr (p.dirs ++ [base ++ ".md"]) ∈ build_file_index paths
      ∧ pathStr (p.dirs ++ [base]) ∈ build_file_index paths
      ∧ (base ++ ".md") ∈ build_file_index paths
      ∧ base ∈ build_file_index paths := by
  obtain ⟨h1, h2, h3, h4⟩ := mem_build_file_index hp
  have hstem : pyStem p.name = base := by
    rw [hname]
    exact pyStem_md hbase
  rw [relStr] at h1
  rw [hstem] at h2 h4
  rw [hname] at h1 h3
  exact ⟨h1, h2, h3, h4⟩

/-- Claim C5 witness: the document `a/page.md` put through the index. -/
theorem build_file_index_four_forms_witness :
    ((⟨["a"], "page.md"⟩ : RelPath) ∈ ([⟨["a"], "page.md"⟩] : List RelPath)
        ∧ (⟨["a"], "page.md"⟩ : RelPath).name = "page" ++ ".md"
        ∧ ("page" : String) ≠ "")
      ∧ (pathStr (["a"] ++ ["page" ++ ".md"])
            ∈ build_file_index [⟨["a"], "page.md"⟩]
        ∧ pathStr (["a"] ++ ["page"]) ∈ build_file_index [⟨["a"], "page.md"⟩]
        ∧ ("page" ++ ".md") ∈ build_file_index [⟨["a"], "page.md"⟩]
        ∧ "page" ∈ build_file_index [⟨["a"], "page.md"⟩]) :=
  ⟨⟨by decide, by decide, by decide⟩,
    build_file_index_four_forms [⟨["a"], "page.md"⟩] ⟨["a"], "page.md"⟩ "page"
      (by decide) (by decide) (by decide)⟩

/-- Claim C6: a link starting with `http://`, `https://`, `mailto:` or `#`
is always skipped — no diagnostic — whatever the index contents. -/
theorem check_link_external_skipped (cwd root index : List String)
    (src : RelPath) (link : String)
    (h : pyStartsWith link "http://" = true ∨ pyStartsWith link "https://" = true
      ∨ pyStartsWith link "mailto:" = true ∨ pyStartsWith link "#" = true) :
    check_link cwd root index src link = none := by
  unfold check_link
  rcases h with h | h | h | h
  · simp [h]
  · simp [h]
  · simp [h]
  · cases h1 : (pyStartsWith link "http://" || pyStartsWith link "https://"
        || pyStartsWith link "mailto:")
    · simp [h1, h]
    · simp [h1]

/-- Claim C6 witness: the anchor link `#top` against an arbitrary index. -/
theorem check_link_external_skipped_witness :
    (pyStartsWith "#top" "http://" = true ∨ pyStartsWith "#top" "https://" = true
        ∨ pyStartsWith "#top" "mailto:" = true ∨ pyStartsWith "#top" "#" = true)
      ∧ check_link [] [] [] ⟨[], "index.md"⟩ "#top" = none :=
  ⟨by decide, check_link_external_skipped [] [] [] ⟨[], "index.md"⟩ "#top"
    (by decide)⟩

/-- Claim C7: an empty document set short-circuits with the single fatal
"no documents" error and an unsuccessful verdict, without index building
or per-file checks. -/
theorem validate_empty_docs (cwd root : List String) :
    validate cwd root [] = ⟨[noDocsMsg], [], false⟩ :=
  rfl

/-- Claim C8: an unreadable document contributes exactly one read-error
diagnostic, no links are extracted from it, and all other documents are
still processed. -/
theorem validate_read_error (cwd root : List String) (pre post : List Doc)
    (bad : Doc) (e : String) (h : bad.content = Except.error e) :
    (validate cwd root (pre ++ bad :: post)).errors
      = validate_all cwd root
            (build_file_index ((pre ++ bad :: post).map Doc.path)) pre
          ++ cantReadMsg root bad.path e
            :: validate_all cwd root
              (build_file_index ((pre ++ bad :: post).map Doc.path)) post := by
  have hne : (pre ++ bad :: post).isEmpty = false := by
    cases pre <;> simp
  simp only [validate, hne, Bool.false_eq_true, if_false]
  rw [validate_all_app]
  simp [validate_all, validate_file, h]

/-- Claim C8 witness: a concrete run with one unreadable and one readable
document. -/
theorem validate_read_error_witness :
    ((⟨⟨[], "bad.md"⟩, Except.error "boom"⟩ : Doc).content
        = Except.error "boom"
      ∧ (validate [] ["docs"]
          ([] ++ (⟨⟨[], "bad.md"⟩, Except.error "boom"⟩ : Doc)
            :: [⟨⟨[], "good.md"⟩, Except.ok ""⟩])).errors
        = validate_all [] ["docs"]
            (build_file_index
              ((([] : List Doc) ++ (⟨⟨[], "bad.md"⟩, Except.error "boom"⟩ : Doc)
                :: [⟨⟨[], "good.md"⟩, Except.ok ""⟩]).map Doc.path)) []
          ++ cantReadMsg ["docs"] ⟨[], "bad.md"⟩ "boom"
            :: validate_all [] ["docs"]
              (build_file_index
                ((([] : List Doc)
                  ++ (⟨⟨[], "bad.md"⟩, Except.error "boom"⟩ : Doc)
                  :: [⟨⟨[], "good.md"⟩, Except.ok ""⟩]).map Doc.path))
              [⟨⟨[], "good.md"⟩, Except.ok ""⟩]) :=
  ⟨rfl, validate_read_error [] ["docs"] [] [⟨⟨[], "good.md"⟩, Except.ok ""⟩]
    ⟨⟨[], "bad.md"⟩, Except.error "boom"⟩ "boom" rfl⟩

/-- Claim C9: on every run the warnings list is empty and the success flag
holds exactly when the error list is empty. -/
theorem validate_no_warnings_success_iff (cwd root : List String)
    (docs : List Doc) :
    (validate cwd root docs).warnings = []
      ∧ ((validate cwd root docs).success = true
          ↔ (validate cwd root docs).errors = []) := by
  cases docs with
  | nil =>
    refine ⟨rfl, ?_⟩
    show false = true ↔ ([noDocsMsg] : List String) = []
    simp
  | cons d ds =>
    refine ⟨rfl, ?_⟩
    show (validate_all _ _ _ (d :: ds)).isEmpty = true
        ↔ validate_all _ _ _ (d :: ds) = []
    exact List.isEmpty_iff

/-- Claim C10: resolving one link is total and appends at most one
diagnostic: for every input the check is silent or appends exactly one
broken-link error (any exception in relative resolution having been
converted into it); it never propagates an exception. -/
theorem check_link_total (cwd root index : List String) (src : RelPath)
    (link : String) :
    check_link cwd root index src link = none
      ∨ check_link cwd root index src link
          = some (brokenMsg root src (clean_link link)) := by
  rcases hx : check_link cwd root index src link with _ | d
  · exact Or.inl rfl
  · exact Or.inr (by rw [check_link_some_eq hx])
